import Mathlib

/-!
Verification development for the `wdk-wallet-tron-gasfree` package: a shallow
embedding of the gas-free Tron wallet account layer (relay account resolution,
fee quoting, transfer orchestration, TIP-712 typed-data hashing, relay HTTP
client, and receipt resolution), with theorems about the embedded operations.

The JavaScript sources hold several coexisting variants of the same class.
Where variants differ, each is embedded under its own name:
* `quoteTransfer` / `transfer` / `_makeRequestToGasfreeProvider` etc. come from
  `src/wallet-account-tron-gasfree.js` (the variant extending
  `WalletAccountTron`);
* names suffixed `RO` come from `wallet-account-read-only-tron-gasfree.js`
  (class `WalletAccountReadOnlyTronGasfree`) and the composed full account
  (the variant extending the read-only class), whose `transfer` is embedded as
  `transferV2`;
* the typed-data engine comes from `src/signer/custom-signer.js`.

Network I/O is modelled by passing the relay's (parsed) responses as explicit
arguments, and by returning the ordered list of effects (HTTP requests, signing
events, chain-client calls) an operation performs.  The keccak-256 hash and the
TronWeb base58-to-hex address conversion are external primitives and are passed
as function arguments.
-/

/-- One entry of a relay account's `assets` list, and equally one entry of the
provider's `/api/v1/config/token/all` token list: a token contract address with
its per-token fee schedule. -/
structure TokenAsset where
  tokenAddress : String
  transferFee : Nat
  activateFee : Nat
deriving DecidableEq, Repr

/-- The relay account returned by `GET /api/v1/address/{address}`: the
relay-controlled shadow address, the current nonce, the activation flag and the
per-token fee schedule. -/
structure GasfreeAccount where
  gasFreeAddress : String
  nonce : Nat
  active : Bool
  assets : List TokenAsset
deriving DecidableEq, Repr

/-- A relay HTTP response, as the JavaScript code observes it after `fetch` and
`response.json()`: either a success (`response.ok`) carrying the parsed `data`
payload, or a failure status carrying the JSON error envelope
`{reason, message}`. -/
inductive RelayResponse (α : Type) where
  | success (data : α)
  | failure (reason : String) (message : String)
deriving DecidableEq, Repr

/-- `WalletAccountReadOnlyTronGasfree._sendRequestToGasfreeProvider`
(wallet-account-read-only-tron-gasfree.js, lines 169-199), observable part: on
`!response.ok` it parses the `{reason, message}` envelope and throws
`Gas free provider error ({reason}): {message}.`; otherwise it returns the
response (modelled as its parsed payload).  The HMAC request signing touches
only outgoing headers and is not observable in the returned value. -/
def sendRequestToGasfreeProvider {α : Type} (resp : RelayResponse α) : Except String α :=
  match resp with
  | .failure reason message =>
      .error ("Gas free provider error (" ++ reason ++ "): " ++ message ++ ".")
  | .success a => .ok a

/-- `_makeRequestToGasfreeProvider` (wallet-account-tron-gasfree.js, lines
334-357, the variant extending `WalletAccountTron`): builds the authenticated
request, performs `fetch`, and returns the response unconditionally - there is
no HTTP status check in this variant, so failure responses flow back to the
caller. -/
def makeRequestToGasfreeProvider {α : Type} (resp : RelayResponse α) : RelayResponse α :=
  resp

/-- The parsed body of `GET /api/v1/config/token/all` as used by `quoteTransfer`
in wallet-account-tron-gasfree.js: a JSON `code` field plus the token list
`data.tokens`. -/
structure TokenConfigData where
  code : Nat
  tokens : List TokenAsset
deriving DecidableEq, Repr

/-- `quoteTransfer` (wallet-account-tron-gasfree.js, lines 229-261): fetches the
provider's global token configuration, fails unless its `code` is 200, looks the
transferred token up in `data.tokens` (not in the relay account's `assets`),
fails with `Token not supported` if absent, and otherwise returns
`transferFee + activateFee` for an inactive relay account and `transferFee`
alone for an active one.  The relay account resolution and the token-config
fetch are network calls; here the resolved account and the parsed token-config
response are passed in. -/
def quoteTransfer (tokenConfig : TokenConfigData) (account : GasfreeAccount)
    (token : String) : Except String Nat :=
  if tokenConfig.code ≠ 200 then .error "Failed to fetch token configuration"
  else
    match tokenConfig.tokens.find? (fun t => t.tokenAddress == token) with
    | none => .error "Token not supported"
    | some tokenInfo =>
        .ok (tokenInfo.transferFee + (if account.active then 0 else tokenInfo.activateFee))

/-- `quoteTransfer` of `WalletAccountReadOnlyTronGasfree`
(wallet-account-read-only-tron-gasfree.js, lines 114-124): looks the token up in
the provider's token list and computes
`paymasterToken.transferFee + (+gasFreeAccount.active * paymasterToken.activateFee)`,
i.e. it adds the activation fee when the account IS active (`+true === 1`,
`+false === 0`).  When the token is absent, `find` yields `undefined` and the
subsequent property access throws a `TypeError`, modelled as an error value. -/
def quoteTransferRO_fee (tokens : List TokenAsset) (account : GasfreeAccount)
    (token : String) : Except String Nat :=
  match tokens.find? (fun t => t.tokenAddress == token) with
  | none => .error "TypeError: cannot read properties of undefined"
  | some paymasterToken =>
      .ok (paymasterToken.transferFee +
        (if account.active then 1 else 0) * paymasterToken.activateFee)

/-- An observable effect of an account operation: a relay HTTP request (GET or
POST with its path), a local typed-data signing event, or a delegated
chain-client receipt lookup. -/
inductive Effect where
  | get (path : String)
  | post (path : String)
  | sign
  | chainLookup (hash : String)
deriving DecidableEq, Repr

/-- The environment a single account instance talks to: the parsed responses
the relay would produce for the three endpoints an operation may hit. -/
structure RelayEnv where
  accountResp : RelayResponse GasfreeAccount
  tokenConfigResp : RelayResponse (List TokenAsset)
deriving Repr

/-- `_getGasfreeAccount` (wallet-account-read-only-tron-gasfree.js, lines
148-158): if the cache cell `_gasFreeAccount` is set, return it without any
network request; otherwise issue `GET /api/v1/address/{ownerAddress}` through
`_sendRequestToGasfreeProvider`, store the parsed `data` in the cache and
return it.  A thrown provider error propagates before the assignment, leaving
the cache unset.  Returns (result, new cache content, effects). -/
def getGasfreeAccountRO (cache : Option GasfreeAccount) (env : RelayEnv)
    (ownerAddress : String) :
    Except String GasfreeAccount × Option GasfreeAccount × List Effect :=
  match cache with
  | some g => (.ok g, some g, [])
  | none =>
      match sendRequestToGasfreeProvider env.accountResp with
      | .error e => (.error e, none, [.get ("/api/v1/address/" ++ ownerAddress)])
      | .ok data => (.ok data, some data, [.get ("/api/v1/address/" ++ ownerAddress)])

/-- `getAddress` (wallet-account-read-only-tron-gasfree.js, lines 69-73):
resolves the relay account and returns its `gasFreeAddress` field. -/
def getAddressRO (cache : Option GasfreeAccount) (env : RelayEnv)
    (ownerAddress : String) :
    Except String String × Option GasfreeAccount × List Effect :=
  match getGasfreeAccountRO cache env ownerAddress with
  | (.error e, c, tr) => (.error e, c, tr)
  | (.ok g, c, tr) => (.ok g.gasFreeAddress, c, tr)

/-- `quoteTransfer` of the read-only account, effectful form (lines 114-124):
resolves the relay account, issues `GET /api/v1/config/token/all` through the
raising request primitive, and computes the fee via `quoteTransferRO_fee`. -/
def quoteTransferRO (cache : Option GasfreeAccount) (env : RelayEnv)
    (ownerAddress : String) (token : String) :
    Except String Nat × Option GasfreeAccount × List Effect :=
  match getGasfreeAccountRO cache env ownerAddress with
  | (.error e, c, tr) => (.error e, c, tr)
  | (.ok gasFreeAccount, c, tr) =>
      match sendRequestToGasfreeProvider env.tokenConfigResp with
      | .error e => (.error e, c, tr ++ [.get "/api/v1/config/token/all"])
      | .ok tokens =>
          (quoteTransferRO_fee tokens gasFreeAccount token, c,
            tr ++ [.get "/api/v1/config/token/all"])

/-- The permit message assembled by the composed account's `transfer`
(wallet-account-tron-gasfree.js, lines 527-537). -/
structure PermitMessage where
  token : String
  serviceProvider : String
  user : String
  receiver : String
  value : Nat
  maxFee : Nat
  deadline : Nat
  version : Nat
  nonce : Nat
deriving DecidableEq, Repr

/-- The `data` payload of a successful `POST /api/v1/gasfree/submit`. -/
structure SubmitData where
  id : String
  estimatedTransferFee : Nat
  estimatedActivateFee : Nat
deriving DecidableEq, Repr

/-- The value returned by a successful `transfer`: the relay job id as `hash`
plus the relay's post-submission fee estimate. -/
structure TransferOutcome where
  hash : String
  fee : Nat
deriving DecidableEq, Repr

/-- The configuration fields the composed `transfer` reads. -/
structure GasfreeConfig where
  chainId : Nat
  verifyingContract : String
  serviceProvider : String
deriving DecidableEq, Repr

/-- `transfer` of the composed full account (wallet-account-tron-gasfree.js,
lines 506-551, the variant extending `WalletAccountReadOnlyTronGasfree`):

1. `address = await super.getAddress()` - the read-only `getAddress`, so this
   is the relay account's `gasFreeAddress` (the shadow address);
2. resolve the relay account (now cached);
3. `quoteTransfer` (inherited from the read-only class) for the fee estimate;
4. if a per-call `config.transferMaxFee` was supplied and the estimate is `>=`
   it, throw the fee-ceiling error - before signing and before the submit POST;
5. assemble the permit message (`user` set to the address of step 1, `maxFee`
   to the estimate, `deadline = timestamp + 300`, `version = 1`, `nonce` from
   the relay account) and sign it;
6. POST `/api/v1/gasfree/submit`; on success return
   `{hash: data.id, fee: estimatedTransferFee + estimatedActivateFee}`.

Returns (result, effects, the message handed to `_signTypedData` if signing was
reached). -/
def transferV2 (cache : Option GasfreeAccount) (env : RelayEnv)
    (submitResp : RelayResponse SubmitData) (cfg : GasfreeConfig)
    (transferMaxFee : Option Nat) (timestamp : Nat) (ownerAddress : String)
    (token : String) (recipient : String) (amount : Nat) :
    Except String TransferOutcome × List Effect × Option PermitMessage :=
  match getAddressRO cache env ownerAddress with
  | (.error e, _, tr) => (.error e, tr, none)
  | (.ok address, cache1, tr1) =>
      match getGasfreeAccountRO cache1 env ownerAddress with
      | (.error e, _, tr2) => (.error e, tr1 ++ tr2, none)
      | (.ok gasFreeAccount, cache2, tr2) =>
          match quoteTransferRO cache2 env ownerAddress token with
          | (.error e, _, tr3) => (.error e, tr1 ++ tr2 ++ tr3, none)
          | (.ok feeEstimate, _, tr3) =>
              let tr := tr1 ++ tr2 ++ tr3
              if transferMaxFee.isSome ∧ feeEstimate ≥ transferMaxFee.getD 0 then
                (.error "The transfer operation exceeds the transfer max fee.", tr, none)
              else
                let message : PermitMessage :=
                  { token := token
                    serviceProvider := cfg.serviceProvider
                    user := address
                    receiver := recipient
                    value := amount
                    maxFee := feeEstimate
                    deadline := timestamp + 300
                    version := 1
                    nonce := gasFreeAccount.nonce }
                let tr := tr ++ [Effect.sign]
                match sendRequestToGasfreeProvider submitResp with
                | .error e => (.error e, tr ++ [.post "/api/v1/gasfree/submit"], some message)
                | .ok data =>
                    (.ok { hash := data.id
                           fee := data.estimatedTransferFee + data.estimatedActivateFee },
                      tr ++ [.post "/api/v1/gasfree/submit"], some message)

/-- One field declaration of a struct type: `{name, type}`. -/
structure TDField where
  type : String
  name : String
deriving DecidableEq, Repr

/-- The typed-data type map handed to the signer: an association list from a
struct type name to its ordered field list (a JavaScript plain object; only
property lookup is ever performed on it). -/
abbrev TypeMap := List (String × List TDField)

/-- `true` when the string ends with the two characters `[]`. -/
def hasArraySuffix (s : String) : Bool :=
  s.data.reverse.take 2 == [']', '[']

/-- Drops the final two characters; used only on strings ending in `[]`,
matching `field.type.slice(0, -2)`. -/
def dropArraySuffix (s : String) : String :=
  String.mk (s.data.take (s.data.length - 2))

/-- `field.type.replace(/\[\]$/, '')` (custom-signer.js, line 25): strips one
trailing `[]` from a type name if present. -/
def stripArray (s : String) : String :=
  if hasArraySuffix s then dropArraySuffix s else s

/-- The list of type names a struct's fields refer to, each with a trailing
`[]` stripped - the names `findDependencies` recurses into. -/
def childTypes (fields : List TDField) : List String :=
  fields.map (fun f => stripArray f.type)

/-- The recursive closure `findDependencies` of `_encodeType`
(custom-signer.js, lines 19-27): `if (!types[type] || deps.includes(type))
return; deps.push(type); for (const field of types[type])
findDependencies(field.type.replace(/\[\]$/, ''))`.  The JavaScript recursion
terminates because each productive call appends a fresh key of `types` to
`deps`; the embedding makes this explicit with a fuel argument, and
`types.length + 1` fuel (used by `_encodeType` below) is proved sufficient. -/
def findDependencies (types : TypeMap) : Nat → List String → String → List String
  | 0, deps, _ => deps
  | fuel + 1, deps, ty =>
      match types.lookup ty with
      | none => deps
      | some fields =>
          if ty ∈ deps then deps
          else (childTypes fields).foldl (findDependencies types fuel) (deps ++ [ty])

/-- The field signature of one struct type,
`TypeName(type1 name1,type2 name2,...)` (custom-signer.js, line 36). -/
def typeSig (types : TypeMap) (t : String) : String :=
  t ++ "(" ++
    String.intercalate ","
      (((types.lookup t).getD []).map (fun f => f.type ++ " " ++ f.name)) ++ ")"

/-- Lexicographic comparison of character lists by code point: `true` when the
first list is less than or equal to the second. -/
def charListLe : List Char → List Char → Bool
  | [], _ => true
  | _ :: _, [] => false
  | a :: as, b :: bs => if a = b then charListLe as bs else decide (a < b)

/-- The comparison JavaScript's `Array.prototype.sort()` applies to strings:
lexicographic order on the code units (for the ASCII type names at hand this
agrees with Lean's `String` order, see `strLeB_eq_le`). -/
def strLeB (a b : String) : Bool :=
  charListLe a.data b.data

/-- `deps.sort()`: sorts the dependency names ascending under `strLeB`
(insertion sort; JavaScript leaves the algorithm unspecified, and the
dependency names are pairwise distinct, so any sort yields the same list). -/
def sortStrings (l : List String) : List String :=
  l.insertionSort (fun a b => strLeB a b = true)

/-- `_encodeType` (custom-signer.js, lines 17-39): collect the dependencies of
the primary type, remove the primary type, sort, and concatenate the field
signatures of the primary type followed by the sorted dependencies.  When the
primary type is not a key of `types`, the JavaScript body throws a `TypeError`
(`types[primaryType].map` on `undefined`), modelled as `none`. -/
def encodeTypeString (types : TypeMap) (primaryType : String) : Option String :=
  match types.lookup primaryType with
  | none => none
  | some _ =>
      let deps0 := findDependencies types (types.length + 1) [] primaryType
      let deps1 := deps0.filter (fun d => d ≠ primaryType)
      let deps := sortStrings deps1
      some (String.join ((primaryType :: deps).map (typeSig types)))

/-- `Reaches types a b`: struct type `b` is referenced (transitively, through
fields and through array-of-struct fields) starting from struct type `a`; both
endpoints and all intermediate type names are keys of `types`. -/
inductive Reaches (types : TypeMap) : String → String → Prop
  | refl (t : String) (h : (types.lookup t).isSome) : Reaches types t t
  | step (a b c : String) (fs : List TDField) (ha : types.lookup a = some fs)
      (hb : b ∈ childTypes fs) (hbc : Reaches types b c) : Reaches types a c

/-- Byte strings, as lists of byte values. -/
abbrev Bytes := List Nat

/-- A JavaScript value as it occurs in typed-data messages: strings, numbers,
nested objects, arrays, and `null`. -/
inductive JsonValue where
  | str (s : String)
  | num (n : Nat)
  | obj (fields : List (String × JsonValue))
  | arr (items : List JsonValue)
  | null
deriving Repr

/-- Property lookup on a value expected to be an object; on a non-object every
lookup misses, like property access on a JavaScript primitive. -/
def asObj : JsonValue → List (String × JsonValue)
  | .obj fields => fields
  | _ => []

/-- The bytes of a string under `Buffer.from(s, 'utf8')`; for the ASCII
identifiers and addresses this package handles, the UTF-8 bytes are the
character code points. -/
def strBytes (s : String) : Bytes :=
  s.data.map Char.toNat

/-- Value of one hexadecimal digit character. -/
def hexVal (c : Char) : Nat :=
  if c.toNat ≥ 97 then c.toNat - 87
  else if c.toNat ≥ 65 then c.toNat - 55
  else c.toNat - 48

/-- `Buffer.from(s, 'hex')`: byte list from pairs of hex digits. -/
def hexBytes : List Char → Bytes
  | c1 :: c2 :: rest => (hexVal c1 * 16 + hexVal c2) :: hexBytes rest
  | _ => []

/-- The 32-byte big-endian ABI word of an unsigned integer. -/
def beBytes32 (n : Nat) : Bytes :=
  (List.range 32).map (fun i => n / 256 ^ (31 - i) % 256)

/-- The 32-byte ABI word of a 20-byte address value (12 zero bytes, then the
address bytes). -/
def addressWord (addrHexNoPrefix : List Char) : Bytes :=
  List.replicate 12 0 ++ hexBytes addrHexNoPrefix

/-- `s.startsWith('41')`, by characters. -/
def startsWith41 (s : String) : Bool :=
  s.data.take 2 == ['4', '1']

/-- A decimal-string integer, as ethers' ABI coder accepts for numeric types. -/
def decStrToNat : String → Option Nat
  | s =>
      if s.data ≠ [] ∧ s.data.all Char.isDigit then
        some (s.data.foldl (fun a c => a * 10 + (c.toNat - 48)) 0)
      else none

/-- The keccak-256 hash of a struct type's canonical type string: `_hashType`
(custom-signer.js, lines 47-50).  Meaningful whenever `t` is a key of `types`
(otherwise `_encodeType` would have thrown). -/
def typeHashBytes (H : Bytes → Bytes) (types : TypeMap) (t : String) : Bytes :=
  H (strBytes ((encodeTypeString types t).getD ""))

/-- `_encodeData` (custom-signer.js, lines 59-101): for each declared field of
`primaryType`, in order, produce one 32-byte ABI slot:
* a missing (`undefined`) or `null` value fails with
  `Missing value for field {name}`;
* a field whose declared type is a key of `types` is a nested struct: its slot
  is `_hashStruct` of the sub-value (`bytes32`); `_hashStruct`'s body
  (`keccak256(typeHash ++ encodedData)`, see `hashStruct` below) is inlined
  here so that the recursion is structural on the fuel;
* otherwise a field type ending in `[]` is an array: each element is encoded
  with `_encodeData` at the element type, the encodings are concatenated, and
  the keccak-256 hash of the concatenation is the slot (`bytes32`) - the
  elements are not hashed individually and no type hash is included;
* `string` / `bytes` hash the UTF-8 / hex-decoded bytes (`bytes32`);
* `address` converts via `tronWeb.address.toHex`, requires the `41` Tron
  prefix, and encodes the remaining 20 bytes as an `address` word;
* `trcToken` is encoded as `uint256`;
* any other type falls through to the generic ABI coder, modelled here for the
  numeric words this package passes (numbers and decimal strings).
`abiCoder.encode` on these static types is the concatenation of the 32-byte
words.  The JavaScript recursion over nested values is made explicit with a
fuel argument. -/
def encodeData (H : Bytes → Bytes) (toHex : String → String) (types : TypeMap) :
    Nat → String → List (String × JsonValue) → Except String Bytes
  | 0, _, _ => .error "recursion limit exhausted"
  | fuel + 1, primaryType, data =>
      match types.lookup primaryType with
      | none => .error "TypeError: types[primaryType] is not iterable"
      | some typeFields => do
          let slots ← List.mapM' (fun field => do
            let value ←
              match data.lookup field.name with
              | none => Except.error ("Missing value for field " ++ field.name)
              | some .null => Except.error ("Missing value for field " ++ field.name)
              | some v => Except.ok v
            if (types.lookup field.type).isSome then
              match encodeTypeString types field.type with
              | none => Except.error "TypeError: types[primaryType] is not iterable"
              | some ts => do
                  let enc ← encodeData H toHex types fuel field.type (asObj value)
                  Except.ok (H (H (strBytes ts) ++ enc))
            else if hasArraySuffix field.type then
              match value with
              | .arr items => do
                  let encs ← List.mapM' (fun item =>
                    encodeData H toHex types fuel (dropArraySuffix field.type) (asObj item)) items
                  Except.ok (H encs.flatten)
              | _ => Except.error "TypeError: value.map is not a function"
            else if field.type == "string" then
              match value with
              | .str s => Except.ok (H (strBytes s))
              | _ => Except.error "invalid string value"
            else if field.type == "bytes" then
              match value with
              | .str s => Except.ok (H (hexBytes s.data))
              | _ => Except.error "invalid bytes value"
            else if field.type == "address" then
              match value with
              | .str s =>
                  let hexAddress := toHex s
                  if startsWith41 hexAddress then
                    Except.ok (addressWord (hexAddress.data.drop 2))
                  else Except.error ("Invalid TRON address format for " ++ s)
              | _ => Except.error "invalid address value"
            else if field.type == "trcToken" then
              match value with
              | .num n => Except.ok (beBytes32 n)
              | .str s =>
                  match decStrToNat s with
                  | some n => Except.ok (beBytes32 n)
                  | none => Except.error "invalid trcToken value"
              | _ => Except.error "invalid trcToken value"
            else
              match value with
              | .num n => Except.ok (beBytes32 n)
              | .str s =>
                  match decStrToNat s with
                  | some n => Except.ok (beBytes32 n)
                  | none => Except.error "invalid numeric value"
              | _ => Except.error "invalid value in generic ABI encoding") typeFields
          pure slots.flatten

/-- `_hashStruct` (custom-signer.js, lines 110-114):
`keccak256(typeHash ‖ encodedData)`, where `typeHash` is computed first (an
unknown primary type throws inside `_hashType` before data encoding). -/
def hashStruct (H : Bytes → Bytes) (toHex : String → String) (types : TypeMap)
    (fuel : Nat) (primaryType : String) (data : List (String × JsonValue)) :
    Except String Bytes :=
  match encodeTypeString types primaryType with
  | none => .error "TypeError: types[primaryType] is not iterable"
  | some ts => do
      let encodedData ← encodeData H toHex types fuel primaryType data
      pure (H (H (strBytes ts) ++ encodedData))

/-- The `EIP712Domain` field declarations `signTypedData` installs when the
caller's type map lacks them (custom-signer.js, lines 125-132). -/
def eip712DomainFieldDefs : List TDField :=
  [⟨"string", "name"⟩, ⟨"string", "version"⟩,
   ⟨"uint256", "chainId"⟩, ⟨"address", "verifyingContract"⟩]

/-- `allTypes` of `signTypedData` (custom-signer.js, lines 124-132): the
caller's types plus, when absent, an `EIP712Domain` entry restricted to the
fields actually present on the domain object. -/
def allTypesWithDomain (types : TypeMap) (domain : List (String × JsonValue)) : TypeMap :=
  if (types.lookup "EIP712Domain").isSome then types
  else
    types ++
      [("EIP712Domain",
        eip712DomainFieldDefs.filter (fun f => (domain.lookup f.name).isSome))]

/-- The digest `signTypedData` signs (custom-signer.js, lines 134-140):
`keccak256('\x19\x01' ‖ hashStruct(EIP712Domain, domain) ‖
hashStruct(primaryType, value))`.  The subsequent secp256k1 signature over the
digest is a delegated curve operation and is outside this embedding. -/
def signTypedDataDigest (H : Bytes → Bytes) (toHex : String → String)
    (types : TypeMap) (fuel : Nat) (domain : List (String × JsonValue))
    (primaryType : String) (value : List (String × JsonValue)) :
    Except String Bytes := do
  let allTypes := allTypesWithDomain types domain
  let domainSeparator ← hashStruct H toHex allTypes fuel "EIP712Domain" domain
  let structHash ← hashStruct H toHex allTypes fuel primaryType value
  pure (H ([0x19, 0x01] ++ domainSeparator ++ structHash))

/-- Modelled from the spec: the spec sentence for arrays of structs reads
"hash each element, concatenate, hash the concatenation"; under the reading
that each element's encoding is hashed individually, the slot would be the hash
of the concatenated per-element hashes. -/
def specArraySlotHashedElems (H : Bytes → Bytes) (elemEncodings : List Bytes) : Bytes :=
  H (List.flatten (elemEncodings.map H))

/-- Modelled from the spec: the same spec sentence under the reading that each
element is hashed as a struct (`hashStruct`, i.e. with the element type hash
prepended) before concatenating. -/
def specArraySlotHashedStructs (H : Bytes → Bytes) (typeHash : Bytes)
    (elemEncodings : List Bytes) : Bytes :=
  H (List.flatten (elemEncodings.map (fun e => H (typeHash ++ e))))

/-- JavaScript truthiness of a possibly-absent string: `undefined` and the
empty string are falsy. -/
def jsTruthyStr : Option String → Bool
  | none => false
  | some s => s != ""

/-- The `data` payload of `GET /api/v1/gasfree/{id}`: the job status, carrying
the chain transaction hash once the relay has assigned one. -/
structure TransferStatusData where
  txnHash : Option String
deriving DecidableEq, Repr

/-- `_getTokenTransferHash` (wallet-account-read-only-tron-gasfree.js, lines
211-217): `GET /api/v1/gasfree/{id}` through the raising request primitive,
then `data?.txnHash` (the outer `Option` models an absent `data` field). -/
def getTokenTransferHashRO (statusResp : RelayResponse (Option TransferStatusData))
    (id : String) : Except String (Option String) × List Effect :=
  match sendRequestToGasfreeProvider statusResp with
  | .error e => (.error e, [.get ("/api/v1/gasfree/" ++ id)])
  | .ok data => (.ok (data.bind TransferStatusData.txnHash), [.get ("/api/v1/gasfree/" ++ id)])

/-- `getTransactionReceipt` (wallet-account-read-only-tron-gasfree.js, lines
132-140): build the underlying Tron read-only account (which resolves the
account's address, hence the relay account), fetch the job status, and either
delegate to the chain client's receipt lookup with the resolved `txnHash` and
return its result verbatim, or return `null` (modelled by the caller-supplied
`nullValue`) when no truthy hash is present.  `ρ` is the chain client's result
type and `chainReceipt` the delegated lookup. -/
def getTransactionReceiptRO {ρ : Type} (cache : Option GasfreeAccount)
    (env : RelayEnv) (ownerAddress : String)
    (statusResp : RelayResponse (Option TransferStatusData)) (id : String)
    (chainReceipt : String → ρ) (nullValue : ρ) :
    Except String ρ × Option GasfreeAccount × List Effect :=
  match getAddressRO cache env ownerAddress with
  | (.error e, c, tr) => (.error e, c, tr)
  | (.ok _, c, tr) =>
      match getTokenTransferHashRO statusResp id with
      | (.error e, tr2) => (.error e, c, tr ++ tr2)
      | (.ok txHash, tr2) =>
          if jsTruthyStr txHash then
            (.ok (chainReceipt (txHash.getD "")), c,
              tr ++ tr2 ++ [.chainLookup (txHash.getD "")])
          else (.ok nullValue, c, tr ++ tr2)

/-- The parsed body of `GET /api/v1/gasfree/{id}` as the `WalletAccountTron`
variant reads it: a JSON `code`, the optional `data` payload, and an optional
error `message`. -/
structure TransferStatusRespV1 where
  code : Nat
  data : Option TransferStatusData
  message : Option String
deriving DecidableEq, Repr

/-- `_getTransferHash` (wallet-account-tron-gasfree.js, lines 293-312): a 400
or 500 `code` throws `message || 'Failed to get transfer hash'`; a missing
`data` or falsy `data.txnHash` throws the WAITING-state sentinel message;
otherwise the chain hash is returned. -/
def getTransferHashV1 (resp : TransferStatusRespV1) (id : String) :
    Except String String × List Effect :=
  let tr := [Effect.get ("/api/v1/gasfree/" ++ id)]
  if resp.code == 400 ∨ resp.code == 500 then
    (.error (if jsTruthyStr resp.message then resp.message.getD ""
             else "Failed to get transfer hash"), tr)
  else
    match resp.data with
    | none =>
        (.error "Transaction hash not available yet. The transaction might still be in WAITING state.", tr)
    | some d =>
        if jsTruthyStr d.txnHash then (.ok (d.txnHash.getD ""), tr)
        else
          (.error "Transaction hash not available yet. The transaction might still be in WAITING state.", tr)

/-- Does the character list `s` begin with the character list `pat`? -/
def charsBeginWith : List Char → List Char → Bool
  | [], _ => true
  | _ :: _, [] => false
  | a :: as, b :: bs => a == b && charsBeginWith as bs

/-- Does `pat` occur somewhere in `s`? -/
def charsInclude (pat : List Char) : List Char → Bool
  | [] => charsBeginWith pat []
  | c :: rest => charsBeginWith pat (c :: rest) || charsInclude pat rest

/-- `s.includes(pat)` on strings. -/
def strIncludes (s pat : String) : Bool :=
  charsInclude pat.data s.data

/-- `getTransactionReceipt` (wallet-account-tron-gasfree.js, lines 269-280):
resolve the chain hash via `_getTransferHash` and delegate to
`super.getTransactionReceipt`; an error whose message contains
`Transaction hash not available yet` is caught and turned into `null`, every
other error propagates. -/
def getTransactionReceiptV1 {ρ : Type} (resp : TransferStatusRespV1) (id : String)
    (chainReceipt : String → ρ) (nullValue : ρ) : Except String ρ × List Effect :=
  match getTransferHashV1 resp id with
  | (.ok txHash, tr) => (.ok (chainReceipt txHash), tr ++ [.chainLookup txHash])
  | (.error e, tr) =>
      if strIncludes e "Transaction hash not available yet" then (.ok nullValue, tr)
      else (.error e, tr)

/-- The parsed body of `GET /api/v1/address/{address}` as the
`WalletAccountTron` variant reads it: `{data, code}`, with `data.message` (read
only on the failure path) modelled as `dataMessage`. -/
structure AccountRespV1 where
  code : Nat
  data : GasfreeAccount
  dataMessage : Option String
deriving DecidableEq, Repr

/-- `_getGasfreeAccount` (wallet-account-tron-gasfree.js, lines 315-331): a set
cache cell is returned without a network request; otherwise the account
endpoint is queried, a `code` of 200 stores and returns the parsed `data`, and
anything else throws `data.message || 'Failed to get gasfree account'`, leaving
the cache unset. -/
def getGasfreeAccountV1 (cache : Option GasfreeAccount) (resp : AccountRespV1)
    (address : String) : Except String GasfreeAccount × Option GasfreeAccount × List Effect :=
  match cache with
  | some g => (.ok g, some g, [])
  | none =>
      let tr := [Effect.get ("/api/v1/address/" ++ address)]
      if resp.code == 200 then (.ok resp.data, some resp.data, tr)
      else
        (.error (if jsTruthyStr resp.dataMessage then resp.dataMessage.getD ""
                 else "Failed to get gasfree account"), none, tr)

/-- Is this relay response a failure status? -/
def isFailureResp {α : Type} : RelayResponse α → Bool
  | .failure _ _ => true
  | .success _ => false

/-- A sequence of `_getGasfreeAccount` calls on one read-only account instance:
each list entry is the response the relay would give if that call reaches the
network.  Returns the final cache cell and the total number of network
requests issued. -/
def runGetGasfreeAccountRO (ownerAddress : String) :
    Option GasfreeAccount → List (RelayResponse GasfreeAccount) →
    Option GasfreeAccount × Nat
  | cache, [] => (cache, 0)
  | cache, resp :: rest =>
      match getGasfreeAccountRO cache ⟨resp, RelayResponse.failure "" ""⟩ ownerAddress with
      | (_, cache1, tr) =>
          let out := runGetGasfreeAccountRO ownerAddress cache1 rest
          (out.1, tr.length + out.2)

/-- A concrete stand-in for the keccak-256 primitive, used to evaluate the
hash-composition theorems on explicit inputs: it records only the input
length. -/
def Hc : Bytes → Bytes := fun b => [b.length % 256]

/-- A concrete relay account: inactive, shadow address distinct from the
owner's address, one supported asset. -/
def acctW : GasfreeAccount := ⟨"TShadowAddr", 7, false, [⟨"T1", 100, 50⟩]⟩

/-- A concrete provider token list carrying the same token as `acctW.assets`. -/
def tokensW : List TokenAsset := [⟨"T1", 100, 50⟩]

/-- A concrete relay environment in which both GET endpoints succeed. -/
def envW : RelayEnv := ⟨.success acctW, .success tokensW⟩

/-- A concrete wallet configuration. -/
def gcfgW : GasfreeConfig := ⟨3448148188, "TVerifyingContract", "TServiceProvider"⟩

/-- A concrete successful submit response. -/
def submitW : RelayResponse SubmitData := .success ⟨"job-1", 60, 40⟩

/-- A concrete type map with an array-of-struct dependency and an unreferenced
struct type. -/
def typesW : TypeMap :=
  [("Outer", [⟨"Inner[]", "items"⟩, ⟨"uint256", "count"⟩]),
   ("Inner", [⟨"address", "who"⟩]),
   ("Unused", [⟨"uint256", "x"⟩])]

/-- A concrete one-struct type map for the digest evaluation. -/
def typesW5 : TypeMap := [("T1", [⟨"uint256", "x"⟩])]

/-- A concrete typed-data domain carrying `name` and `version` only. -/
def domainW : List (String × JsonValue) :=
  [("name", .str "GasFreeController"), ("version", .str "V1.0.0")]

/-- A concrete message value for `typesW5`. -/
def valueW5 : List (String × JsonValue) := [("x", .num 5)]

/-- The domain separator `signTypedData` computes on the concrete inputs. -/
def dsW : Bytes :=
  match hashStruct Hc id (allTypesWithDomain typesW5 domainW) 3 "EIP712Domain" domainW with
  | .ok b => b
  | .error _ => []

/-- The message struct hash `signTypedData` computes on the concrete inputs. -/
def shW : Bytes :=
  match hashStruct Hc id (allTypesWithDomain typesW5 domainW) 3 "T1" valueW5 with
  | .ok b => b
  | .error _ => []

/-- A concrete type map whose primary type holds one dynamic array of
structs. -/
def typesW6 : TypeMap :=
  [("Outer", [⟨"Inner[]", "xs"⟩]),
   ("Inner", [⟨"uint256", "a"⟩, ⟨"uint256", "b"⟩])]

/-- A concrete value for `typesW6`: a one-element array of `Inner` structs. -/
def valueW6 : List (String × JsonValue) :=
  [("xs", .arr [.obj [("a", .num 1), ("b", .num 2)]])]

/-- The `_encodeData` encoding of the single `Inner` element of `valueW6`. -/
def innerEncW : Bytes := beBytes32 1 ++ beBytes32 2

/-- The struct type names of a type map, as a finite set. -/
def keysOf (types : TypeMap) : Finset String :=
  (types.map Prod.fst).toFinset

/-- `closedAt types S x`: every struct type directly referenced by the fields
of `x` (array suffixes stripped) belongs to `S`. -/
def closedAt (types : TypeMap) (S : List String) (x : String) : Prop :=
  ∀ fs, types.lookup x = some fs → ∀ c, c ∈ childTypes fs →
    (types.lookup c).isSome → c ∈ S

/-- C1 (amended): for every resolved relay account and every token present in
the provider's token configuration list (fetched with `code` 200),
`quoteTransfer` returns a fee equal to the token's `transferFee` plus its
`activateFee` when the account is not active, and equal to `transferFee` alone
when the account is active; if the token is not present in that configuration
list, the operation fails with the `Token not supported` error. -/
theorem quoteTransfer_fee_spec (tokenConfig : TokenConfigData)
    (account : GasfreeAccount) (token : String)
    (hcode : tokenConfig.code = 200) :
    (∀ tokenInfo,
      tokenConfig.tokens.find? (fun t => t.tokenAddress == token) = some tokenInfo →
      quoteTransfer tokenConfig account token =
        .ok (if account.active then tokenInfo.transferFee
             else tokenInfo.transferFee + tokenInfo.activateFee)) ∧
    (tokenConfig.tokens.find? (fun t => t.tokenAddress == token) = none →
      quoteTransfer tokenConfig account token = .error "Token not supported") := by
  constructor
  · intro tokenInfo hfind
    simp only [quoteTransfer, hcode, hfind]
    cases h : account.active <;> simp [h]
  · intro hfind
    simp [quoteTransfer, hcode, hfind]

/-- C1 witness: on the concrete inactive account and a token list carrying
`T1` with `transferFee = 100` and `activateFee = 50`, the quote is 150. -/
theorem quoteTransfer_fee_spec_witness :
    quoteTransfer ⟨200, tokensW⟩ acctW "T1" = .ok 150 := by
  have h := (quoteTransfer_fee_spec ⟨200, tokensW⟩ acctW "T1" rfl).1 ⟨"T1", 100, 50⟩ rfl
  simpa [acctW] using h

/-- C1 counterexample: the token `T1` is present in the resolved relay
account's `assets` list (inactive account, `transferFee = 100`,
`activateFee = 50`), yet `quoteTransfer` fails with `Token not supported`
because it consults the provider's token configuration list - here empty - and
not the account's asset list; the claimed result would be `.ok 150`. -/
theorem quoteTransfer_asset_list_counterexample :
    acctW.assets.find? (fun t => t.tokenAddress == "T1") = some ⟨"T1", 100, 50⟩ ∧
    acctW.active = false ∧
    quoteTransfer ⟨200, []⟩ acctW "T1" = .error "Token not supported" :=
  ⟨rfl, rfl, rfl⟩

/-- Documentation of the read-only variant: its `quoteTransfer` inverts the
activation condition, adding the activation fee exactly when the account is
already active. -/
theorem quoteTransferRO_fee_inverted_activation :
    quoteTransferRO_fee tokensW acctW "T1" = .ok 100 ∧
    quoteTransferRO_fee tokensW { acctW with active := true } "T1" = .ok 150 :=
  ⟨rfl, rfl⟩

/-- C7 (amended): relay HTTP calls made through the read-only account's
`_sendRequestToGasfreeProvider` raise, on every non-success status, exactly
`Gas free provider error ({reason}): {message}.` built from the JSON error
envelope, and never return the response in that case; the legacy
`_makeRequestToGasfreeProvider` of the `WalletAccountTron` variant performs no
status check and returns the response to its caller unconditionally. -/
theorem relay_error_envelope_spec :
    (∀ (α : Type) (reason message : String),
      sendRequestToGasfreeProvider (α := α) (.failure reason message) =
        .error ("Gas free provider error (" ++ reason ++ "): " ++ message ++ ".")) ∧
    (∀ (α : Type) (a : α),
      sendRequestToGasfreeProvider (.success a) = .ok a) ∧
    (∀ (α : Type) (resp : RelayResponse α),
      makeRequestToGasfreeProvider resp = resp) :=
  ⟨fun _ _ _ => rfl, fun _ _ => rfl, fun _ _ => rfl⟩

/-- C7 counterexample: a concrete non-success relay response (HTTP 401
envelope) passed through the `WalletAccountTron` variant's
`_makeRequestToGasfreeProvider` is returned to the caller as-is - no error in
the `Gas free provider error (...)` form is raised. -/
theorem relay_error_envelope_counterexample :
    makeRequestToGasfreeProvider
        (RelayResponse.failure "unauthorized" "bad key" : RelayResponse GasfreeAccount) =
      .failure "unauthorized" "bad key" ∧
    isFailureResp (makeRequestToGasfreeProvider
        (RelayResponse.failure "unauthorized" "bad key" : RelayResponse GasfreeAccount)) = true :=
  ⟨rfl, rfl⟩

/-- C10: the public `getAddress` of a gasfree account returns the
`gasFreeAddress` field of the resolved relay account - the relay-controlled
shadow address - both on first resolution and from the cache, and in
particular not the owner's key-derived address whenever the two differ. -/
theorem getAddress_returns_shadow_address (env : RelayEnv) (owner : String)
    (g : GasfreeAccount) (hresp : env.accountResp = .success g) :
    (getAddressRO none env owner).1 = .ok g.gasFreeAddress ∧
    (getAddressRO (some g) env owner).1 = .ok g.gasFreeAddress ∧
    (g.gasFreeAddress ≠ owner → (getAddressRO none env owner).1 ≠ .ok owner) := by
  refine ⟨?_, ?_, ?_⟩
  · simp [getAddressRO, getGasfreeAccountRO, sendRequestToGasfreeProvider, hresp]
  · simp [getAddressRO, getGasfreeAccountRO]
  · intro hne
    simp [getAddressRO, getGasfreeAccountRO, sendRequestToGasfreeProvider, hresp, hne]

/-- C10 witness: on the concrete environment the returned address is the shadow
address `TShadowAddr`, not the owner address. -/
theorem getAddress_returns_shadow_address_witness :
    (getAddressRO none envW "TOwnerAddr").1 = .ok "TShadowAddr" ∧
    (getAddressRO none envW "TOwnerAddr").1 ≠ .ok "TOwnerAddr" := by
  have h := getAddress_returns_shadow_address envW "TOwnerAddr" acctW rfl
  exact ⟨h.1, h.2.2 (by decide)⟩

/-- C9: within one read-only account instance, `_getGasfreeAccount` returns a
set cache without any network request; an unset cache triggers the account GET,
whose parsed payload is stored and returned on success, while a provider
failure leaves the cache unset (so a later call retries the network); and over
any sequence of calls on a fresh instance the number of network requests is the
number of leading failures plus at most one success - in particular the account
is fetched successfully at most once. -/
theorem gasfreeAccount_cache_once (env : RelayEnv) (owner : String)
    (g d : GasfreeAccount) (reason message : String) :
    (getGasfreeAccountRO (some g) env owner = (.ok g, some g, [])) ∧
    (env.accountResp = .success d →
      getGasfreeAccountRO none env owner =
        (.ok d, some d, [.get ("/api/v1/address/" ++ owner)])) ∧
    (env.accountResp = .failure reason message →
      getGasfreeAccountRO none env owner =
        (.error ("Gas free provider error (" ++ reason ++ "): " ++ message ++ "."),
          none, [.get ("/api/v1/address/" ++ owner)])) ∧
    (∀ resps : List (RelayResponse GasfreeAccount),
      (runGetGasfreeAccountRO owner none resps).2 =
        min resps.length ((resps.takeWhile isFailureResp).length + 1)) := by
  refine ⟨rfl, ?_, ?_, ?_⟩
  · intro h
    simp [getGasfreeAccountRO, sendRequestToGasfreeProvider, h]
  · intro h
    simp [getGasfreeAccountRO, sendRequestToGasfreeProvider, h]
  · intro resps
    induction resps with
    | nil => rfl
    | cons resp rest ih =>
        cases resp with
        | success a =>
            have hcached : ∀ (c : GasfreeAccount) (l : List (RelayResponse GasfreeAccount)),
                runGetGasfreeAccountRO owner (some c) l = (some c, 0) := by
              intro c l
              induction l with
              | nil => rfl
              | cons r l ihl =>
                  simp [runGetGasfreeAccountRO, getGasfreeAccountRO, ihl]
            simp [runGetGasfreeAccountRO, getGasfreeAccountRO,
              sendRequestToGasfreeProvider, isFailureResp, hcached]
        | failure r m =>
            simp only [runGetGasfreeAccountRO, getGasfreeAccountRO,
              sendRequestToGasfreeProvider, List.takeWhile, isFailureResp] at ih ⊢
            simp [ih]
            omega

/-- C9 witness: a failing first call leaves the cache unset and retries, the
following successful call stores the account, and the third call is served from
the cache - two network requests in total. -/
theorem gasfreeAccount_cache_once_witness :
    getGasfreeAccountRO none envW "TOwnerAddr" =
      (.ok acctW, some acctW, [.get "/api/v1/address/TOwnerAddr"]) ∧
    (runGetGasfreeAccountRO "TOwnerAddr" none
      [RelayResponse.failure "unauthorized" "bad key",
       RelayResponse.success acctW, RelayResponse.success acctW]).2 = 2 := by
  have h := gasfreeAccount_cache_once envW "TOwnerAddr" acctW acctW "r" "m"
  refine ⟨h.2.1 rfl, ?_⟩
  have h4 := h.2.2.2
    [RelayResponse.failure "unauthorized" "bad key",
     RelayResponse.success acctW, RelayResponse.success acctW]
  simpa [isFailureResp] using h4

/-- C2: whenever the caller supplies a per-call `transferMaxFee` to the
composed account's `transfer` and the computed fee quote is greater than or
equal to it, `transfer` fails with the fee-ceiling error, no signing event
occurs, and no submit POST (indeed no POST at all) is issued to the relay. -/
theorem transfer_fee_ceiling_guard (env : RelayEnv)
    (submitResp : RelayResponse SubmitData) (cfg : GasfreeConfig)
    (maxFee timestamp : Nat) (owner token recipient : String) (amount : Nat)
    (acct : GasfreeAccount) (tokens : List TokenAsset) (fee : Nat)
    (hacct : env.accountResp = .success acct)
    (htokens : env.tokenConfigResp = .success tokens)
    (hfee : quoteTransferRO_fee tokens acct token = .ok fee)
    (hge : fee ≥ maxFee) :
    (transferV2 none env submitResp cfg (some maxFee) timestamp owner token
        recipient amount).1 =
      .error "The transfer operation exceeds the transfer max fee." ∧
    (∀ p, Effect.post p ∉
      (transferV2 none env submitResp cfg (some maxFee) timestamp owner token
        recipient amount).2.1) ∧
    Effect.sign ∉
      (transferV2 none env submitResp cfg (some maxFee) timestamp owner token
        recipient amount).2.1 ∧
    (transferV2 none env submitResp cfg (some maxFee) timestamp owner token
        recipient amount).2.2 = none := by
  have hrun : transferV2 none env submitResp cfg (some maxFee) timestamp owner token
      recipient amount =
      (.error "The transfer operation exceeds the transfer max fee.",
        [Effect.get ("/api/v1/address/" ++ owner), Effect.get "/api/v1/config/token/all"],
        none) := by
    simp [transferV2, getAddressRO, getGasfreeAccountRO, quoteTransferRO,
      sendRequestToGasfreeProvider, hacct, htokens, hfee, hge]
  refine ⟨by rw [hrun], ?_, by rw [hrun]; simp, by rw [hrun]⟩
  intro p
  rw [hrun]
  simp

/-- C2 witness: with the supported token `T1` quoting a fee of 100 and a
caller-supplied ceiling of 100, the concrete transfer fails with the
fee-ceiling error, performs only the two GET requests, signs nothing, and
issues no submit POST. -/
theorem transfer_fee_ceiling_guard_witness :
    (transferV2 none envW submitW gcfgW (some 100) 1000 "TOwnerAddr" "T1"
        "TRecipient" 42).1 =
      .error "The transfer operation exceeds the transfer max fee." ∧
    (∀ p, Effect.post p ∉
      (transferV2 none envW submitW gcfgW (some 100) 1000 "TOwnerAddr" "T1"
        "TRecipient" 42).2.1) ∧
    Effect.sign ∉
      (transferV2 none envW submitW gcfgW (some 100) 1000 "TOwnerAddr" "T1"
        "TRecipient" 42).2.1 ∧
    (transferV2 none envW submitW gcfgW (some 100) 1000 "TOwnerAddr" "T1"
        "TRecipient" 42).2.2 = none :=
  transfer_fee_ceiling_guard envW submitW gcfgW 100 1000 "TOwnerAddr" "T1"
    "TRecipient" 42 acctW tokensW 100 rfl rfl rfl (by decide)

/-- C4: in the composed account's `transfer`, the `user` field of the permit
message handed to `_signTypedData` is `super.getAddress()`, i.e. the relay
account's `gasFreeAddress` (the relay-managed shadow address), and not the
owner's key-derived address: on a concrete run with owner address `TOwnerAddr`
and shadow address `TShadowAddr`, the signed message carries
`user = TShadowAddr`. -/
theorem transfer_user_field_is_shadow_address :
    ((transferV2 none envW submitW gcfgW none 1000 "TOwnerAddr" "T1"
        "TRecipient" 42).2.2.map PermitMessage.user) = some "TShadowAddr" ∧
    acctW.gasFreeAddress = "TShadowAddr" ∧
    "TShadowAddr" ≠ "TOwnerAddr" := by
  refine ⟨rfl, rfl, by decide⟩

/-- C8: for every relay job id, `getTransactionReceipt` returns the null value
(without error and without touching the chain client) while the relay job
status carries no truthy `txnHash`, and once a `txnHash` is present it performs
exactly one chain-client receipt lookup with that hash and returns the chain
client's result verbatim.  Both the read-only implementation and the
`WalletAccountTron` variant (which maps the WAITING-state error back to null)
are covered. -/
theorem getTransactionReceipt_null_then_delegate {ρ : Type} (env : RelayEnv)
    (owner id hsh : String) (g : GasfreeAccount) (d : Option TransferStatusData)
    (chainReceipt : String → ρ) (nullValue : ρ)
    (hacct : env.accountResp = .success g) :
    (jsTruthyStr (d.bind TransferStatusData.txnHash) = false →
      getTransactionReceiptRO none env owner (.success d) id chainReceipt nullValue =
        (.ok nullValue, some g,
          [.get ("/api/v1/address/" ++ owner), .get ("/api/v1/gasfree/" ++ id)])) ∧
    (d.bind TransferStatusData.txnHash = some hsh → hsh ≠ "" →
      getTransactionReceiptRO none env owner (.success d) id chainReceipt nullValue =
        (.ok (chainReceipt hsh), some g,
          [.get ("/api/v1/address/" ++ owner), .get ("/api/v1/gasfree/" ++ id),
           .chainLookup hsh]) ∧
      List.count (Effect.chainLookup hsh)
        (getTransactionReceiptRO none env owner (.success d) id chainReceipt
          nullValue).2.2 = 1) ∧
    (∀ (code : Nat) (msg : Option String), code ≠ 400 → code ≠ 500 →
      jsTruthyStr (d.bind TransferStatusData.txnHash) = false →
      getTransactionReceiptV1 ⟨code, d, msg⟩ id chainReceipt nullValue =
        (.ok nullValue, [.get ("/api/v1/gasfree/" ++ id)])) ∧
    (∀ (code : Nat) (msg : Option String), code ≠ 400 → code ≠ 500 →
      d.bind TransferStatusData.txnHash = some hsh → hsh ≠ "" →
      getTransactionReceiptV1 ⟨code, d, msg⟩ id chainReceipt nullValue =
        (.ok (chainReceipt hsh), [.get ("/api/v1/gasfree/" ++ id),
          .chainLookup hsh])) := by
  refine ⟨?_, ?_, ?_, ?_⟩
  · intro hfalse
    simp [getTransactionReceiptRO, getAddressRO, getGasfreeAccountRO,
      sendRequestToGasfreeProvider, getTokenTransferHashRO, hacct, hfalse]
  · intro hsome hne
    have htrue : jsTruthyStr (some hsh) = true := by
      simp [jsTruthyStr, hne]
    constructor
    · simp [getTransactionReceiptRO, getAddressRO, getGasfreeAccountRO,
        sendRequestToGasfreeProvider, getTokenTransferHashRO, hacct, hsome,
        htrue]
    · simp [getTransactionReceiptRO, getAddressRO, getGasfreeAccountRO,
        sendRequestToGasfreeProvider, getTokenTransferHashRO, hacct, hsome,
        htrue, List.count_cons]
  · intro code msg h400 h500 hfalse
    cases d with
    | none =>
        simp [getTransactionReceiptV1, getTransferHashV1, h400, h500, strIncludes]
        decide
    | some dd =>
        simp only [Option.some_bind] at hfalse
        simp [getTransactionReceiptV1, getTransferHashV1, h400, h500, hfalse,
          strIncludes]
        decide
  · intro code msg h400 h500 hsome hne
    cases d with
    | none => simp at hsome
    | some dd =>
        simp only [Option.some_bind] at hsome
        have htrue : jsTruthyStr (some hsh) = true := by
          simp [jsTruthyStr, hne]
        simp [getTransactionReceiptV1, getTransferHashV1, h400, h500, hsome,
          htrue]

/-- C8 witness: on the concrete environment, a job with no `txnHash` yields the
null value with no chain lookup, and a job with hash `abc123` yields the chain
client's receipt for `abc123` with exactly one chain lookup, in both
implementations. -/
theorem getTransactionReceipt_null_then_delegate_witness :
    getTransactionReceiptRO none envW "TOwnerAddr"
        (.success (some ⟨none⟩)) "job-1" (fun s => "R:" ++ s) "NULL" =
      (.ok "NULL", some acctW,
        [.get ("/api/v1/address/" ++ "TOwnerAddr"), .get ("/api/v1/gasfree/" ++ "job-1")]) ∧
    getTransactionReceiptRO none envW "TOwnerAddr"
        (.success (some ⟨some "abc123"⟩)) "job-1" (fun s => "R:" ++ s) "NULL" =
      (.ok "R:abc123", some acctW,
        [.get ("/api/v1/address/" ++ "TOwnerAddr"), .get ("/api/v1/gasfree/" ++ "job-1"),
         .chainLookup "abc123"]) ∧
    getTransactionReceiptV1 ⟨200, some ⟨some "abc123"⟩, none⟩ "job-1"
        (fun s => "R:" ++ s) "NULL" =
      (.ok "R:abc123", [.get ("/api/v1/gasfree/" ++ "job-1"), .chainLookup "abc123"]) := by
  have h1 := getTransactionReceipt_null_then_delegate (ρ := String) envW
    "TOwnerAddr" "job-1" "abc123" acctW (some ⟨none⟩) (fun s => "R:" ++ s) "NULL" rfl
  have h2 := getTransactionReceipt_null_then_delegate (ρ := String) envW
    "TOwnerAddr" "job-1" "abc123" acctW (some ⟨some "abc123"⟩) (fun s => "R:" ++ s)
    "NULL" rfl
  exact ⟨h1.1 rfl, (h2.2.1 rfl (by decide)).1,
    h2.2.2.2 200 none (by decide) (by decide) rfl (by decide)⟩

/-- C5: the digest `signTypedData` signs equals the keccak hash of the 2-byte
prefix `0x19 0x01` immediately followed by the domain struct hash and then the
message struct hash, with no separators; and each struct hash is the keccak
hash of the type hash concatenated with the encoded data. -/
theorem signTypedData_digest_composition (H : Bytes → Bytes)
    (toHex : String → String) (types : TypeMap) (fuel : Nat)
    (domain value : List (String × JsonValue)) (primaryType : String)
    (ds sh : Bytes)
    (hds : hashStruct H toHex (allTypesWithDomain types domain) fuel
      "EIP712Domain" domain = .ok ds)
    (hsh : hashStruct H toHex (allTypesWithDomain types domain) fuel
      primaryType value = .ok sh) :
    signTypedDataDigest H toHex types fuel domain primaryType value =
      .ok (H (0x19 :: 0x01 :: (ds ++ sh))) ∧
    (∀ (t : String) (data : List (String × JsonValue)) (ts : String) (enc : Bytes),
      encodeTypeString (allTypesWithDomain types domain) t = some ts →
      encodeData H toHex (allTypesWithDomain types domain) fuel t data = .ok enc →
      hashStruct H toHex (allTypesWithDomain types domain) fuel t data =
        .ok (H (H (strBytes ts) ++ enc))) := by
  constructor
  · simp only [signTypedDataDigest, hds, hsh]
    rfl
  · intro t data ts enc hts henc
    simp [hashStruct, hts, henc]

/-- C5 witness: on concrete inputs (the length-recording hash stand-in, a
one-field struct, a two-field domain) the domain separator, the message struct
hash, and the digest compose exactly as stated. -/
theorem signTypedData_digest_composition_witness :
    hashStruct Hc id (allTypesWithDomain typesW5 domainW) 3 "EIP712Domain"
      domainW = .ok dsW ∧
    hashStruct Hc id (allTypesWithDomain typesW5 domainW) 3 "T1" valueW5 =
      .ok shW ∧
    signTypedDataDigest Hc id typesW5 3 domainW "T1" valueW5 =
      .ok (Hc (0x19 :: 0x01 :: (dsW ++ shW))) :=
  ⟨rfl, rfl,
    (signTypedData_digest_composition Hc id typesW5 3 domainW valueW5 "T1"
      dsW shW rfl rfl).1⟩

/-- C6 (amended): when encoding a struct field whose declared type ends in `[]`
(and is not itself a key of the type map), the encoder encodes each element's
struct data with `_encodeData` - without hashing the elements individually and
without an element type hash - concatenates the per-element encodings, hashes
that concatenation once, and uses the result as the field's single slot. -/
theorem encodeData_array_concatenated_encodings (H : Bytes → Bytes)
    (toHex : String → String) (types : TypeMap) (fuel : Nat)
    (structName fieldName arrType : String) (items : List JsonValue)
    (encs : List Bytes)
    (hstruct : types.lookup structName = some [⟨arrType, fieldName⟩])
    (harr : hasArraySuffix arrType = true)
    (hnotkey : types.lookup arrType = none)
    (henc : List.mapM' (fun item =>
      encodeData H toHex types fuel (dropArraySuffix arrType) (asObj item)) items =
      .ok encs) :
    encodeData H toHex types (fuel + 1) structName [(fieldName, .arr items)] =
      .ok (H encs.flatten) := by
  simp [encodeData, hstruct, hnotkey, harr, henc, List.lookup, Except.bind,
    Bind.bind, Except.pure, Pure.pure]

/-- C6 amended-claim witness: on the concrete one-element array of two-word
`Inner` structs, the slot is the hash of the single element's 64-byte
encoding. -/
theorem encodeData_array_concatenated_encodings_witness :
    encodeData Hc id typesW6 3 "Outer" valueW6 =
      .ok (Hc (List.flatten [innerEncW])) :=
  encodeData_array_concatenated_encodings Hc id typesW6 2 "Outer" "xs"
    "Inner[]" [.obj [("a", .num 1), ("b", .num 2)]] [innerEncW] rfl rfl rfl rfl

/-- C6 counterexample: on a one-element `Inner[]` array the code's slot is the
hash of the element's raw 64-byte encoding (value `[64]` under the
length-recording hash), while hashing each element first - under either reading
of "hash each element" - would give `[1]`; the two disagree. -/
theorem encodeData_array_slot_counterexample :
    encodeData Hc id typesW6 3 "Outer" valueW6 = .ok (Hc innerEncW) ∧
    encodeData Hc id typesW6 3 "Inner" [("a", .num 1), ("b", .num 2)] =
      .ok innerEncW ∧
    Hc innerEncW = [64] ∧
    specArraySlotHashedElems Hc [innerEncW] = [1] ∧
    specArraySlotHashedStructs Hc (typeHashBytes Hc typesW6 "Inner")
      [innerEncW] = [1] ∧
    ([64] : Bytes) ≠ [1] :=
  ⟨rfl, rfl, rfl, rfl, rfl, by decide⟩

theorem lex_cons_iff_of_ne {a b : Char} {l1 l2 : List Char} (hne : a ≠ b) :
    List.Lex (· < ·) (a :: l1) (b :: l2) ↔ a < b := by
  constructor
  · intro h
    cases h with
    | cons h => exact absurd rfl hne
    | rel h => exact h
  · intro h
    exact List.Lex.rel h

theorem charListLe_iff (as : List Char) :
    ∀ bs, charListLe as bs = true ↔ (as = bs ∨ List.Lex (· < ·) as bs) := by
  induction as with
  | nil =>
      intro bs
      cases bs with
      | nil => simp [charListLe]
      | cons b bs => exact iff_of_true rfl (Or.inr List.Lex.nil)
  | cons a as ih =>
      intro bs
      cases bs with
      | nil =>
          refine iff_of_false (by simp [charListLe]) ?_
          rintro (h | h)
          · exact List.cons_ne_nil a as h
          · exact List.Lex.not_nil_right _ _ h
      | cons b bs =>
          by_cases hab : a = b
          · subst hab
            have h1 : charListLe (a :: as) (a :: bs) = charListLe as bs := by
              simp [charListLe]
            rw [h1, ih bs]
            constructor
            · rintro (h | h)
              · exact Or.inl (by rw [h])
              · exact Or.inr (List.Lex.cons h)
            · rintro (h | h)
              · injection h with h1 h2
                exact Or.inl h2
              · exact Or.inr (List.Lex.cons_iff.mp h)
          · have h1 : charListLe (a :: as) (b :: bs) = decide (a < b) := by
              simp [charListLe, hab]
            rw [h1]
            simp only [decide_eq_true_eq, lex_cons_iff_of_ne hab]
            constructor
            · intro h
              exact Or.inr h
            · rintro (h | h)
              · injection h with h1 h2
                exact absurd h1 hab
              · exact h

theorem strLeB_eq_le (a b : String) : strLeB a b = true ↔ a ≤ b := by
  rw [String.le_iff_toList_le, le_iff_lt_or_eq]
  have hlt : (a.toList < b.toList) ↔ List.Lex (· < ·) a.data b.data := Iff.rfl
  have heq : (a.toList = b.toList) ↔ a.data = b.data := Iff.rfl
  rw [hlt, heq]
  rw [strLeB, charListLe_iff]
  tauto

theorem sortStrings_sorted (l : List String) :
    List.Sorted (· ≤ ·) (sortStrings l) := by
  have htot : IsTotal String (fun a b => strLeB a b = true) := by
    constructor
    intro a b
    rcases le_total a b with h | h
    · exact Or.inl ((strLeB_eq_le a b).mpr h)
    · exact Or.inr ((strLeB_eq_le b a).mpr h)
  have htrans : IsTrans String (fun a b => strLeB a b = true) := by
    constructor
    intro a b c hab hbc
    exact (strLeB_eq_le a c).mpr
      (le_trans ((strLeB_eq_le a b).mp hab) ((strLeB_eq_le b c).mp hbc))
  have h := @List.sorted_insertionSort String (fun a b => strLeB a b = true)
    (fun _ _ => inferInstance) htot htrans l
  exact h.imp (fun hab => (strLeB_eq_le _ _).mp hab)

theorem sortStrings_perm (l : List String) : (sortStrings l).Perm l :=
  List.perm_insertionSort _ l

theorem lookup_isSome_iff {β : Type} (l : List (String × β)) (a : String) :
    (l.lookup a).isSome ↔ a ∈ l.map Prod.fst := by
  induction l with
  | nil => simp [List.lookup]
  | cons p rest ih =>
      obtain ⟨k, v⟩ := p
      by_cases h : a = k
      · subst h
        simp [List.lookup]
      · have hbeq : (a == k) = false := beq_eq_false_iff_ne.mpr h
        simp [List.lookup, hbeq, ih, h]

theorem mem_keysOf_iff (types : TypeMap) (t : String) :
    t ∈ keysOf types ↔ (types.lookup t).isSome := by
  rw [keysOf, List.mem_toFinset, lookup_isSome_iff]

theorem reaches_lookup_isSome {types : TypeMap} {a b : String}
    (h : Reaches types a b) : (types.lookup a).isSome := by
  cases h with
  | refl _ ht => exact ht
  | step _ _ _ fs ha _ _ => simp [ha]

theorem foldl_extends {f : List String → String → List String}
    (hf : ∀ d t, ∃ l, f d t = d ++ l) :
    ∀ (cs : List String) (d : List String), ∃ l, List.foldl f d cs = d ++ l := by
  intro cs
  induction cs with
  | nil => exact fun d => ⟨[], by simp⟩
  | cons c cs ih =>
      intro d
      obtain ⟨l1, h1⟩ := hf d c
      obtain ⟨l2, h2⟩ := ih (f d c)
      rw [h1] at h2
      exact ⟨l1 ++ l2, by rw [List.foldl_cons, h1, h2, List.append_assoc]⟩

theorem findDependencies_extends (types : TypeMap) :
    ∀ (fuel : Nat) (deps : List String) (ty : String),
      ∃ l, findDependencies types fuel deps ty = deps ++ l := by
  intro fuel
  induction fuel with
  | zero => exact fun deps ty => ⟨[], by simp [findDependencies]⟩
  | succ fuel ih =>
      intro deps ty
      unfold findDependencies
      cases hl : types.lookup ty with
      | none => exact ⟨[], by simp⟩
      | some fs =>
          by_cases hmem : ty ∈ deps
          · exact ⟨[], by simp [hmem]⟩
          · simp only [hmem, if_false]
            obtain ⟨l, h⟩ := foldl_extends ih (childTypes fs) (deps ++ [ty])
            exact ⟨[ty] ++ l, by simp [h]⟩

theorem mem_findDependencies_of_mem (types : TypeMap) {fuel : Nat}
    {deps : List String} {ty x : String} (hx : x ∈ deps) :
    x ∈ findDependencies types fuel deps ty := by
  obtain ⟨l, h⟩ := findDependencies_extends types fuel deps ty
  rw [h]
  exact List.mem_append_left l hx

theorem mem_foldl_findDependencies_of_mem (types : TypeMap) {fuel : Nat}
    {cs : List String} {d : List String} {x : String} (hx : x ∈ d) :
    x ∈ List.foldl (findDependencies types fuel) d cs := by
  obtain ⟨l, h⟩ := foldl_extends (findDependencies_extends types fuel) cs d
  rw [h]
  exact List.mem_append_left l hx

theorem foldl_nodup {f : List String → String → List String}
    (hf : ∀ d t, d.Nodup → (f d t).Nodup) :
    ∀ (cs : List String) (d : List String), d.Nodup → (List.foldl f d cs).Nodup := by
  intro cs
  induction cs with
  | nil => exact fun d h => h
  | cons c cs ih => exact fun d h => ih (f d c) (hf d c h)

theorem findDependencies_nodup (types : TypeMap) :
    ∀ (fuel : Nat) (deps : List String) (ty : String),
      deps.Nodup → (findDependencies types fuel deps ty).Nodup := by
  intro fuel
  induction fuel with
  | zero => exact fun deps ty h => by simpa [findDependencies] using h
  | succ fuel ih =>
      intro deps ty hdeps
      unfold findDependencies
      cases hl : types.lookup ty with
      | none => exact hdeps
      | some fs =>
          by_cases hmem : ty ∈ deps
          · simpa [hmem] using hdeps
          · simp only [hmem, if_false]
            refine foldl_nodup ih (childTypes fs) (deps ++ [ty]) ?_
            have hdisj : List.Disjoint deps [ty] := by
              intro a ha hb
              rw [List.mem_singleton] at hb
              exact hmem (hb ▸ ha)
            exact List.nodup_append.mpr ⟨hdeps, List.nodup_singleton ty, hdisj⟩

theorem foldl_new_mem {f : List String → String → List String}
    {P : String → String → Prop}
    (hf : ∀ d t x, x ∈ f d t → x ∈ d ∨ P t x) :
    ∀ (cs : List String) (d : List String) (x : String),
      x ∈ List.foldl f d cs → x ∈ d ∨ ∃ c ∈ cs, P c x := by
  intro cs
  induction cs with
  | nil => exact fun d x h => Or.inl h
  | cons c cs ih =>
      intro d x h
      rcases ih (f d c) x h with h1 | ⟨c', hc', hP⟩
      · rcases hf d c x h1 with h2 | hP
        · exact Or.inl h2
        · exact Or.inr ⟨c, List.mem_cons_self c cs, hP⟩
      · exact Or.inr ⟨c', List.mem_cons_of_mem c hc', hP⟩

theorem findDependencies_sound (types : TypeMap) :
    ∀ (fuel : Nat) (deps : List String) (ty x : String),
      x ∈ findDependencies types fuel deps ty →
      x ∈ deps ∨ Reaches types ty x := by
  intro fuel
  induction fuel with
  | zero => exact fun deps ty x h => Or.inl (by simpa [findDependencies] using h)
  | succ fuel ih =>
      intro deps ty x
      unfold findDependencies
      cases hl : types.lookup ty with
      | none => exact fun h => Or.inl h
      | some fs =>
          by_cases hmem : ty ∈ deps
          · simp only [hmem, if_true]
            exact fun h => Or.inl h
          · simp only [hmem, if_false]
            intro h
            rcases foldl_new_mem (fun d t y hy => ih d t y hy)
              (childTypes fs) (deps ++ [ty]) x h with h1 | ⟨c, hc, hR⟩
            · rcases List.mem_append.mp h1 with h2 | h2
              · exact Or.inl h2
              · have hx : x = ty := by simpa using h2
                subst hx
                exact Or.inr (Reaches.refl x (by simp [hl]))
            · exact Or.inr (Reaches.step ty c x fs hl hc hR)

theorem keys_sdiff_card_anti (types : TypeMap) {d d' : List String}
    (h : ∀ x, x ∈ d → x ∈ d') :
    (keysOf types \ d'.toFinset).card ≤ (keysOf types \ d.toFinset).card := by
  apply Finset.card_le_card
  apply Finset.sdiff_subset_sdiff (le_refl _)
  intro x hx
  rw [List.mem_toFinset] at hx ⊢
  exact h x hx

theorem keys_sdiff_card_lt (types : TypeMap) {deps : List String} {ty : String}
    (hty : (types.lookup ty).isSome) (hmem : ty ∉ deps) :
    (keysOf types \ (deps ++ [ty]).toFinset).card <
      (keysOf types \ deps.toFinset).card := by
  apply Finset.card_lt_card
  have hsub : keysOf types \ (deps ++ [ty]).toFinset ⊆ keysOf types \ deps.toFinset := by
    apply Finset.sdiff_subset_sdiff (le_refl _)
    intro x hx
    rw [List.mem_toFinset] at hx ⊢
    exact List.mem_append_left [ty] hx
  rw [Finset.ssubset_iff_of_subset hsub]
  refine ⟨ty, ?_, ?_⟩
  · rw [Finset.mem_sdiff, mem_keysOf_iff]
    exact ⟨hty, by simpa [List.mem_toFinset] using hmem⟩
  · rw [Finset.mem_sdiff]
    intro h
    exact h.2 (by simp [List.mem_toFinset])

theorem findDependencies_self_mem (types : TypeMap) (fuel : Nat)
    (deps : List String) (ty : String)
    (hfuel : (keysOf types \ deps.toFinset).card + 1 ≤ fuel)
    (hty : (types.lookup ty).isSome) :
    ty ∈ findDependencies types fuel deps ty := by
  cases fuel with
  | zero => omega
  | succ fuel =>
      obtain ⟨fs, hfs⟩ := Option.isSome_iff_exists.mp hty
      by_cases hmem : ty ∈ deps
      · simp only [findDependencies, hfs, if_pos hmem]
        exact hmem
      · simp only [findDependencies, hfs, if_neg hmem]
        exact mem_foldl_findDependencies_of_mem types (by simp)

theorem closedAt_mono {types : TypeMap} {S S' : List String} {x : String}
    (hsub : ∀ y, y ∈ S → y ∈ S') (h : closedAt types S x) :
    closedAt types S' x :=
  fun fs hfs c hc hcs => hsub c (h fs hfs c hc hcs)

theorem findDependencies_closed (types : TypeMap) :
    ∀ (fuel : Nat) (deps : List String) (ty : String),
      (keysOf types \ deps.toFinset).card + 1 ≤ fuel →
      ∀ x, x ∈ findDependencies types fuel deps ty → x ∉ deps →
        closedAt types (findDependencies types fuel deps ty) x := by
  intro fuel
  induction fuel with
  | zero =>
      intro deps ty hfuel
      omega
  | succ fuel ih =>
      intro deps ty hfuel x hx hxdeps
      cases hl : types.lookup ty with
      | none =>
          simp only [findDependencies, hl] at hx
          exact absurd hx hxdeps
      | some fs =>
          by_cases hmem : ty ∈ deps
          · simp only [findDependencies, hl, if_pos hmem] at hx
            exact absurd hx hxdeps
          · have hbound : (keysOf types \ (deps ++ [ty]).toFinset).card + 1 ≤ fuel := by
              have hlt := keys_sdiff_card_lt types (by simp [hl]) hmem
              omega
            have hfold : ∀ (cs : List String) (d : List String),
                (keysOf types \ d.toFinset).card + 1 ≤ fuel →
                (∀ c ∈ cs, (types.lookup c).isSome →
                    c ∈ List.foldl (findDependencies types fuel) d cs) ∧
                (∀ y, y ∈ List.foldl (findDependencies types fuel) d cs → y ∉ d →
                    closedAt types (List.foldl (findDependencies types fuel) d cs) y) := by
              intro cs
              induction cs with
              | nil =>
                  intro d hb
                  refine ⟨by simp, ?_⟩
                  intro y hy hyd
                  simp only [List.foldl_nil] at hy
                  exact absurd hy hyd
              | cons c cs ihcs =>
                  intro d hb
                  have hsub1 : ∀ z, z ∈ d → z ∈ findDependencies types fuel d c :=
                    fun z hz => mem_findDependencies_of_mem types hz
                  have hb1 : (keysOf types \ (findDependencies types fuel d c).toFinset).card + 1 ≤ fuel :=
                    le_trans (Nat.add_le_add_right (keys_sdiff_card_anti types hsub1) 1) hb
                  have hsubrest : ∀ z, z ∈ findDependencies types fuel d c →
                      z ∈ List.foldl (findDependencies types fuel)
                        (findDependencies types fuel d c) cs :=
                    fun z hz => mem_foldl_findDependencies_of_mem types hz
                  constructor
                  · intro c' hc' hc'some
                    rcases List.mem_cons.mp hc' with rfl | hmem'
                    · have hself : c' ∈ findDependencies types fuel d c' :=
                        findDependencies_self_mem types fuel d c' hb hc'some
                      rw [List.foldl_cons]
                      exact hsubrest _ hself
                    · rw [List.foldl_cons]
                      exact (ihcs (findDependencies types fuel d c) hb1).1 c' hmem' hc'some
                  · intro y hy hyd
                    rw [List.foldl_cons] at hy ⊢
                    by_cases hyd1 : y ∈ findDependencies types fuel d c
                    · exact closedAt_mono hsubrest (ih d c hb y hyd1 hyd)
                    · exact (ihcs (findDependencies types fuel d c) hb1).2 y hy hyd1
            have hF := hfold (childTypes fs) (deps ++ [ty]) hbound
            have heq : findDependencies types (fuel + 1) deps ty =
                List.foldl (findDependencies types fuel) (deps ++ [ty]) (childTypes fs) := by
              simp only [findDependencies, hl, if_neg hmem]
            rw [heq] at hx ⊢
            by_cases hxty : x ∈ deps ++ [ty]
            · have hx_eq : x = ty := by
                rcases List.mem_append.mp hxty with h | h
                · exact absurd h hxdeps
                · simpa using h
              subst hx_eq
              intro fs' hfs' c hc hcsome
              rw [hl] at hfs'
              injection hfs' with hfs'
              subst hfs'
              exact hF.1 c hc hcsome
            · exact hF.2 x hx hxty

theorem reaches_mem_of_closed (types : TypeMap) (S : List String)
    (hcl : ∀ y, y ∈ S → closedAt types S y) :
    ∀ a x, Reaches types a x → a ∈ S → x ∈ S := by
  intro a x h
  induction h with
  | refl t ht => exact fun hm => hm
  | step a b c fs ha hb hbc ihh =>
      intro haS
      have hbS : b ∈ S := hcl a haS fs ha b hb (reaches_lookup_isSome hbc)
      exact ihh hbS

theorem findDependencies_complete (types : TypeMap) (primaryType x : String)
    (hreach : Reaches types primaryType x) :
    x ∈ findDependencies types (types.length + 1) [] primaryType := by
  have hbound : (keysOf types \ ([] : List String).toFinset).card + 1 ≤
      types.length + 1 := by
    have h1 := List.toFinset_card_le (types.map Prod.fst)
    simp only [keysOf, List.toFinset_nil, Finset.sdiff_empty,
      List.length_map] at h1 ⊢
    omega
  have hclosed : ∀ y, y ∈ findDependencies types (types.length + 1) [] primaryType →
      closedAt types (findDependencies types (types.length + 1) [] primaryType) y := by
    intro y hy
    exact findDependencies_closed types (types.length + 1) [] primaryType hbound y hy
      (by simp)
  have hself : primaryType ∈ findDependencies types (types.length + 1) [] primaryType :=
    findDependencies_self_mem types (types.length + 1) [] primaryType hbound
      (reaches_lookup_isSome hreach)
  exact reaches_mem_of_closed types _ hclosed primaryType x hreach hself

theorem foldl_strAppend (l : List String) :
    ∀ s : String, List.foldl (· ++ ·) s l = s ++ List.foldl (· ++ ·) "" l := by
  induction l with
  | nil =>
      intro s
      simp only [List.foldl_nil]
      exact (String.append_empty s).symm
  | cons a l ih =>
      intro s
      rw [List.foldl_cons, List.foldl_cons, ih (s ++ a), ih ("" ++ a),
        String.empty_append, String.append_assoc]

theorem string_join_cons (a : String) (l : List String) :
    String.join (a :: l) = a ++ String.join l := by
  show List.foldl (· ++ ·) "" (a :: l) = a ++ List.foldl (· ++ ·) "" l
  rw [List.foldl_cons, String.empty_append, foldl_strAppend]

/-- C3: for every type map and primary type name (present in the map), the
canonical type string produced by `_encodeType` is the primary type's field
signature `TypeName(type1 name1,...)` followed by the field signatures of a
dependency list that is lexicographically sorted, duplicate-free, excludes the
primary type, and contains exactly the struct types transitively referenced
from the primary type (including through array-of-struct fields), concatenated
with no separator; that dependency list is the unique such list, so the result
is deterministic and independent of the order in which dependencies are
discovered. -/
theorem encodeType_canonical (types : TypeMap) (primaryType : String)
    (pf : List TDField) (hp : types.lookup primaryType = some pf) :
    ∃ deps : List String,
      encodeTypeString types primaryType =
        some (typeSig types primaryType ++ String.join (deps.map (typeSig types))) ∧
      List.Sorted (· ≤ ·) deps ∧
      deps.Nodup ∧
      primaryType ∉ deps ∧
      (∀ s, s ∈ deps ↔ s ≠ primaryType ∧ Reaches types primaryType s) ∧
      (∀ l : List String, List.Sorted (· ≤ ·) l → l.Nodup →
        (∀ s, s ∈ l ↔ s ≠ primaryType ∧ Reaches types primaryType s) →
        l = deps) := by
  classical
  refine ⟨sortStrings ((findDependencies types (types.length + 1) [] primaryType).filter
    (fun d => d ≠ primaryType)), ?_, sortStrings_sorted _, ?_, ?_, ?_, ?_⟩
  · simp only [encodeTypeString, hp, List.map_cons, string_join_cons]
  · have h0 : (findDependencies types (types.length + 1) [] primaryType).Nodup :=
      findDependencies_nodup types _ [] primaryType List.nodup_nil
    exact (sortStrings_perm _).symm.nodup (h0.filter _)
  · intro hmem
    have h1 := (sortStrings_perm _).mem_iff.mp hmem
    have h2 := List.of_mem_filter h1
    simp at h2
  · intro s
    rw [(sortStrings_perm _).mem_iff, List.mem_filter]
    constructor
    · rintro ⟨h0mem, hne⟩
      refine ⟨by simpa using hne, ?_⟩
      rcases findDependencies_sound types _ [] primaryType s h0mem with h | h
      · simp at h
      · exact h
    · rintro ⟨hne, hr⟩
      exact ⟨findDependencies_complete types primaryType s hr, by simpa using hne⟩
  · intro l hs hnd hmemiff
    have h0 : (findDependencies types (types.length + 1) [] primaryType).Nodup :=
      findDependencies_nodup types _ [] primaryType List.nodup_nil
    have hdnd : (sortStrings ((findDependencies types (types.length + 1) []
        primaryType).filter (fun d => d ≠ primaryType))).Nodup :=
      (sortStrings_perm _).symm.nodup (h0.filter _)
    have hchar : ∀ s, s ∈ sortStrings ((findDependencies types (types.length + 1) []
        primaryType).filter (fun d => d ≠ primaryType)) ↔
        s ≠ primaryType ∧ Reaches types primaryType s := by
      intro s
      rw [(sortStrings_perm _).mem_iff, List.mem_filter]
      constructor
      · rintro ⟨h0mem, hne⟩
        refine ⟨by simpa using hne, ?_⟩
        rcases findDependencies_sound types _ [] primaryType s h0mem with h | h
        · simp at h
        · exact h
      · rintro ⟨hne, hr⟩
        exact ⟨findDependencies_complete types primaryType s hr, by simpa using hne⟩
    have hperm : l.Perm (sortStrings ((findDependencies types (types.length + 1) []
        primaryType).filter (fun d => d ≠ primaryType))) := by
      apply List.perm_of_nodup_nodup_toFinset_eq hnd hdnd
      ext x
      simp only [List.mem_toFinset]
      rw [hmemiff x, hchar x]
    exact List.eq_of_perm_of_sorted hperm hs (sortStrings_sorted _)

/-- C3 witness: on the concrete type map with an array-of-struct reference and
an unreferenced struct type, the canonical string and its dependency-list
characterization are obtained by instantiating the theorem at `Outer`. -/
theorem encodeType_canonical_witness :
    ∃ deps : List String,
      encodeTypeString typesW "Outer" =
        some (typeSig typesW "Outer" ++ String.join (deps.map (typeSig typesW))) ∧
      List.Sorted (· ≤ ·) deps ∧
      deps.Nodup ∧
      "Outer" ∉ deps ∧
      (∀ s, s ∈ deps ↔ s ≠ "Outer" ∧ Reaches typesW "Outer" s) ∧
      (∀ l : List String, List.Sorted (· ≤ ·) l → l.Nodup →
        (∀ s, s ∈ l ↔ s ≠ "Outer" ∧ Reaches typesW "Outer" s) → l = deps) :=
  encodeType_canonical typesW "Outer"
    [⟨"Inner[]", "items"⟩, ⟨"uint256", "count"⟩] rfl

/-- Concrete illustration: `Inner` is discovered through the `Inner[]` array
field, the unreferenced struct type `Unused` is excluded, and the primary type
comes first. -/
theorem encodeTypeString_example :
    encodeTypeString typesW "Outer" =
      some "Outer(Inner[] items,uint256 count)Inner(address who)" := rfl
